import Mathlib

/-!
Verification of the VIC catalogue streaming parser (src/vic-catparser.py).

The embedding models the scanned JSON data as an inductive `Json` type whose
objects keep insertion order (Python dicts preserve insertion order), and
translates the program's functions (`VICParser.get_context`,
`VICParser.count_items`, `VICParser.stream_items`,
`OutputFormatter.format_readable` / `format_hashonly` / `format_json` /
`write_json_file`) together with the `main` processing loop.  The streaming
scanner `ijson.items(f, "value.item")` is modelled by the list of array items
it yields, and `ijson.parse(f)` by the list of (path, value) events it yields.
Python exceptions are modelled with `Except`; Python `None` is `Json.null`.
The compact serialisation `json.dumps(..., separators=(",", ":"))` (with its
default `ensure_ascii=True` escaping) is modelled by `jsonEncode`, and
`json.loads` (restricted to the integer-number fragment that the data model
uses; Lean strings cannot hold lone surrogates, which are rejected) by
`jsonDecode`.
-/

namespace VicCat

/-- JSON values as materialised by the streaming scanner; object fields keep
their order, numbers are integers (the data model's category / size fields). -/
inductive Json where
  | null : Json
  | bool : Bool → Json
  | num : Int → Json
  | str : String → Json
  | arr : List Json → Json
  | obj : List (String × Json) → Json

/-- Python `isinstance(item, dict)`. -/
def pyIsDict : Json → Bool
  | .obj _ => true
  | _ => false

/-- Python `d.get(key, dflt)` on a dict (first binding wins; a Python dict has
unique keys, so the first binding is the binding). -/
def dictGet (fs : List (String × Json)) (key : String) (dflt : Json) : Json :=
  match fs.find? (fun p => p.1 == key) with
  | some p => p.2
  | none => dflt

/-- Python `key in d` on a dict. -/
def dictHas (fs : List (String × Json)) (key : String) : Bool :=
  (fs.find? (fun p => p.1 == key)).isSome

/-- Python truthiness of a scanned JSON value. -/
def pyTruthy : Json → Bool
  | .null => false
  | .bool b => b
  | .num n => n != 0
  | .str s => !s.isEmpty
  | .arr xs => !xs.isEmpty
  | .obj fs => !fs.isEmpty

/-- Python `==` between a scanned JSON value and an `int` argument: ints
compare by value, bools compare as 0/1 (Python `bool` is an `int`), every
other type compares unequal. -/
def pyIntEq : Json → Int → Bool
  | .num n, c => n == c
  | .bool b, c => (if b then (1 : Int) else 0) == c
  | _, _ => false

/-- Decimal digit character. -/
def decDigit (n : Nat) : Char := Char.ofNat (48 + n)

/-- Fuel-driven decimal digit accumulator (most significant first). -/
def natDigitsCore : Nat → Nat → List Char → List Char
  | 0, _, acc => acc
  | fuel + 1, n, acc =>
    if n = 0 then acc else natDigitsCore fuel (n / 10) (decDigit (n % 10) :: acc)

/-- Decimal rendering of a natural number. -/
def natDec (n : Nat) : List Char :=
  if n = 0 then ['0'] else natDigitsCore n n []

/-- Decimal rendering of an integer, as Python renders an `int`. -/
def intDecChars (i : Int) : List Char :=
  if i < 0 then '-' :: natDec i.natAbs else natDec i.natAbs

/-- Python `str()` of an `int`. -/
def intDec (i : Int) : String := String.mk (intDecChars i)

/-- Lowercase hexadecimal digit character. -/
def hexDigit (n : Nat) : Char :=
  if n < 10 then Char.ofNat (48 + n) else Char.ofNat (87 + n)

/-- Python `repr` escaping of one character inside a string literal quoted
with `q` (backslash escapes, `\xhh` for the control characters). The model
is exact on the ASCII range; non-printable characters at or above 128,
which Python also escapes, are kept verbatim here. -/
def pyReprChar (q : Char) (c : Char) : List Char :=
  if c = '\\' then ['\\', '\\']
  else if c = q then ['\\', q]
  else if c = '\n' then ['\\', 'n']
  else if c = '\r' then ['\\', 'r']
  else if c = '\t' then ['\\', 't']
  else if c.toNat < 32 ∨ c.toNat = 127 then
    ['\\', 'x', hexDigit (c.toNat / 16), hexDigit (c.toNat % 16)]
  else [c]

/-- Python `repr` of a string: single quotes, unless the string holds a
single quote and no double quote. -/
def pyReprString (s : String) : String :=
  let q : Char := if s.toList.contains '\'' && !(s.toList.contains '"') then '"' else '\''
  String.mk (q :: ((s.toList.map (pyReprChar q)).flatten ++ [q]))

mutual

/-- Python `str()` of a scanned JSON value, as an f-string interpolates it. -/
def pyStr : Json → String
  | .null => "None"
  | .bool true => "True"
  | .bool false => "False"
  | .num n => intDec n
  | .str s => s
  | .arr xs => "[" ++ reprElems xs ++ "]"
  | .obj fs => "\x7b" ++ reprFields fs ++ "\x7d"

/-- Python `repr()` of a scanned JSON value (container elements print this way). -/
def pyReprVal : Json → String
  | .null => "None"
  | .bool true => "True"
  | .bool false => "False"
  | .num n => intDec n
  | .str s => pyReprString s
  | .arr xs => "[" ++ reprElems xs ++ "]"
  | .obj fs => "\x7b" ++ reprFields fs ++ "\x7d"

/-- Comma-separated `repr` list body. -/
def reprElems : List Json → String
  | [] => ""
  | [x] => pyReprVal x
  | x :: y :: rest => pyReprVal x ++ ", " ++ reprElems (y :: rest)

/-- Comma-separated `repr` dict body. -/
def reprFields : List (String × Json) → String
  | [] => ""
  | [(k, v)] => pyReprString k ++ ": " ++ pyReprVal v
  | (k, v) :: f :: rest => pyReprString k ++ ": " ++ pyReprVal v ++ ", " ++ reprFields (f :: rest)

end

/-- Four lowercase hex digits, as in a `\uXXXX` escape. -/
def hex4 (n : Nat) : List Char :=
  [hexDigit (n / 4096 % 16), hexDigit (n / 256 % 16), hexDigit (n / 16 % 16), hexDigit (n % 16)]

/-- The `ensure_ascii` escaping of one character performed by `json.dumps`:
the named two-character escapes, printable ASCII verbatim, everything else as
`\uXXXX` (a surrogate pair for the astral plane). -/
def encodeChar (c : Char) : List Char :=
  if c = '"' then ['\\', '"']
  else if c = '\\' then ['\\', '\\']
  else if c = '\n' then ['\\', 'n']
  else if c = '\r' then ['\\', 'r']
  else if c = '\t' then ['\\', 't']
  else if c.toNat = 8 then ['\\', 'b']
  else if c.toNat = 12 then ['\\', 'f']
  else if 32 ≤ c.toNat ∧ c.toNat ≤ 126 then [c]
  else if c.toNat < 65536 then '\\' :: 'u' :: hex4 c.toNat
  else
    ('\\' :: 'u' :: hex4 (55296 + (c.toNat - 65536) / 1024)) ++
      ('\\' :: 'u' :: hex4 (56320 + (c.toNat - 65536) % 1024))

/-- Escaped body of a string literal. -/
def encStrChars (cs : List Char) : List Char := (cs.map encodeChar).flatten

/-- A JSON string literal, quotes included. -/
def encStringLit (s : String) : List Char := '"' :: encStrChars s.toList ++ ['"']

mutual

/-- Compact JSON rendering: `json.dumps(v, separators=(",", ":"))`. -/
def encVal : Json → List Char
  | .null => 'n' :: "ull".toList
  | .bool true => 't' :: "rue".toList
  | .bool false => 'f' :: "alse".toList
  | .num i => intDecChars i
  | .str s => encStringLit s
  | .arr [] => ['[', ']']
  | .arr (x :: xs) => '[' :: (encVal x ++ encElems xs)
  | .obj [] => ['{', '}']
  | .obj ((k, v) :: fs) => '{' :: (encStringLit k ++ ':' :: encVal v ++ encFields fs)

/-- Remaining array elements, each preceded by a comma, closed by `]`. -/
def encElems : List Json → List Char
  | [] => [']']
  | x :: xs => ',' :: (encVal x ++ encElems xs)

/-- Remaining object members, each preceded by a comma, closed by `}`. -/
def encFields : List (String × Json) → List Char
  | [] => ['}']
  | (k, v) :: fs => ',' :: (encStringLit k ++ ':' :: encVal v ++ encFields fs)

end

/-- Compact JSON rendering as a string. -/
def jsonEncode (j : Json) : String := String.mk (encVal j)

/-! ## The source functions of `VICParser` and `OutputFormatter` -/

/-- State of one `VICParser` run object: the event stream that
`ijson.parse` yields over the source file, and the `self.context` cache,
initially Python `None` (modelled as `Json.null`). -/
structure VICParser where
  events : List (String × Json)
  context : Json

/-- Freshly constructed `VICParser` (its `self.context = None`). -/
def mkVICParser (events : List (String × Json)) : VICParser := ⟨events, .null⟩

/-- Result of one `get_context()` call: the returned value, the state of the
run object afterwards, and whether this call opened and scanned the source. -/
structure CtxCall where
  value : Json
  state : VICParser
  scanned : Bool

/-- One scan of the event stream for the first `@odata.context` event, the
loop body of `get_context` (breaks at the first hit, `None` if absent). -/
def scanContext (events : List (String × Json)) : Json :=
  match events.find? (fun e => e.1 == "@odata.context") with
  | some e => e.2
  | none => .null

/-- Model of `VICParser.get_context`: re-opens and scans the source only when
`self.context is None`, then returns `self.context`. -/
def get_context (p : VICParser) : CtxCall :=
  match p.context with
  | .null =>
    let v := scanContext p.events
    ⟨v, ⟨p.events, v⟩, true⟩
  | c => ⟨c, p, false⟩

/-- Model of `VICParser.count_items`: one pass over the items that
`ijson.items(f, "value.item")` yields, incrementing a counter. -/
def count_items (source : List Json) : Nat :=
  source.foldl (fun count _ => count + 1) 0

/-- The per-item test in `VICParser.stream_items` and in the `main` loop:
`isinstance(item, dict) and item.get("Category") == category`. -/
def itemCategoryMatches (item : Json) (category : Int) : Bool :=
  match item with
  | .obj fs => pyIntEq (dictGet fs "Category" .null) category
  | _ => false

/-- Model of `VICParser.stream_items`: yields every item whose test
`category is None or (isinstance(item, dict) and item.get("Category") == category)`
passes, in source order. -/
def stream_items (source : List Json) (category : Option Int) : List Json :=
  source.filter (fun item =>
    match category with
    | none => true
    | some c => itemCategoryMatches item c)

/-- One `  - name: value` line for an exif entry; a non-dict entry raises
(`.get` on a non-dict). -/
def exifLine (exif : Json) : Except String String :=
  match exif with
  | .obj efs =>
    .ok ("  - " ++ pyStr (dictGet efs "PropertyName" .null) ++ ": " ++
      pyStr (dictGet efs "PropertyValue" .null))
  | _ => .error "AttributeError"

/-- The `for exif in item["Exifs"]` loop: iterating a non-sequence raises, a
string or dict iterates to characters or keys whose `.get` raises (unless
empty), a list maps each entry. -/
def exifLines : Json → Except String (List String)
  | .arr items => items.mapM exifLine
  | .str s => if s.isEmpty then .ok [] else .error "AttributeError"
  | .obj fs => if fs.isEmpty then .ok [] else .error "AttributeError"
  | _ => .error "TypeError"

/-- Model of `OutputFormatter.format_readable`: fixed field block, optional exif
lines, a blank-line terminator, joined with newlines. -/
def format_readable (item : Json) : Except String String :=
  match item with
  | .obj fs =>
    let base : List String := [
      "----------------------------------------",
      "MediaID: " ++ pyStr (dictGet fs "MediaID" .null),
      "MD5: " ++ pyStr (dictGet fs "MD5" .null),
      "SHA1: " ++ pyStr (dictGet fs "SHA1" .null),
      "PhotoDNA: " ++ pyStr (dictGet fs "PhotoDNA" .null),
      "MediaSize: " ++ pyStr (dictGet fs "MediaSize" .null),
      "DateUpdated: " ++ pyStr (dictGet fs "DateUpdated" .null)]
    if dictHas fs "Exifs" then
      match exifLines (dictGet fs "Exifs" .null) with
      | .ok ls => .ok (String.intercalate "\n" (base ++ ("Exif Data:" :: ls) ++ ["\n"]))
      | .error e => .error e
    else .ok (String.intercalate "\n" (base ++ ["\n"]))
  | _ => .error "AttributeError"

/-- The `hash_map` dictionary of `format_hashonly`. -/
def hash_map : List (String × String) :=
  [("md5", "MD5"), ("sha1", "SHA1"), ("photodna", "PhotoDNA")]

/-- Model of `OutputFormatter.format_hashonly`: in `item.get(hash_map[hash_type], '')`
Python evaluates the attribute access `item.get` first (AttributeError on a
non-dict item), then the argument `hash_map[hash_type]` - an unguarded dict
subscript raising KeyError on an unknown kind, evaluated before the call runs
but after the attribute access - and finally the call itself, whose result a
truthiness test turns into the hash line or the no-value result. -/
def format_hashonly (item : Json) (hash_type : String) : Except String (Option String) :=
  match item with
  | .obj fs =>
    match hash_map.find? (fun p => p.1 == hash_type) with
    | none => .error "KeyError"
    | some p =>
      let hash_value := dictGet fs p.2 (.str "")
      .ok (if pyTruthy hash_value then some (pyStr hash_value ++ "\n") else none)
  | _ => .error "AttributeError"

/-- Model of `OutputFormatter.format_json`: the envelope object rendered compactly. -/
def format_json (items : List Json) (context : Json) : String :=
  jsonEncode (.obj [("@odata.context", context), ("value", .arr items)])

/-- Model of `OutputFormatter.write_json_file`: the bytes written to the output file
(same envelope, same compact rendering as `format_json`). -/
def write_json_file (items : List Json) (context : Json) : String :=
  jsonEncode (.obj [("@odata.context", context), ("value", .arr items)])

/-! ## A decoder for the compact encoding (`json.loads` on the emitted fragment) -/

/-- Hexadecimal digit value (both cases accepted). -/
def hexVal (c : Char) : Option Nat :=
  if 48 ≤ c.toNat ∧ c.toNat ≤ 57 then some (c.toNat - 48)
  else if 97 ≤ c.toNat ∧ c.toNat ≤ 102 then some (c.toNat - 87)
  else if 65 ≤ c.toNat ∧ c.toNat ≤ 70 then some (c.toNat - 55)
  else none

/-- Value of four hexadecimal digit characters. -/
def hex4Val (h1 h2 h3 h4 : Char) : Option Nat :=
  match hexVal h1, hexVal h2, hexVal h3, hexVal h4 with
  | some a, some b, some c, some d => some (4096 * a + 256 * b + 16 * c + d)
  | _, _, _, _ => none

/-- The named two-character escapes of JSON. -/
def unescapeChar (e : Char) : Option Char :=
  if e = '"' then some '"'
  else if e = '\\' then some '\\'
  else if e = '/' then some '/'
  else if e = 'b' then some (Char.ofNat 8)
  else if e = 'f' then some (Char.ofNat 12)
  else if e = 'n' then some '\n'
  else if e = 'r' then some '\r'
  else if e = 't' then some '\t'
  else none

/-- A low surrogate escape `\uXXXX` expected right after a high surrogate
with value `n`; recombines the pair into one character. -/
def parseLowSurrogate (n : Nat) : List Char → Option (Char × List Char)
  | b1 :: b2 :: g1 :: g2 :: g3 :: g4 :: rest4 =>
    if b1 = '\\' ∧ b2 = 'u' then
      (hex4Val g1 g2 g3 g4).bind (fun m =>
        if 56320 ≤ m ∧ m ≤ 57343 then
          some (Char.ofNat (65536 + 1024 * (n - 55296) + (m - 56320)), rest4)
        else none)
    else none
  | _ => none

/-- The four hex digits of a `\uXXXX` escape and what they denote: a plain
character, the start of a surrogate pair, or (rejected) a lone low
surrogate. -/
def parseUEscape : List Char → Option (Char × List Char)
  | h1 :: h2 :: h3 :: h4 :: rest3 =>
    (hex4Val h1 h2 h3 h4).bind (fun n =>
      if 55296 ≤ n ∧ n ≤ 56319 then parseLowSurrogate n rest3
      else if 56320 ≤ n ∧ n ≤ 57343 then none
      else some (Char.ofNat n, rest3))
  | _ => none

/-- One escape sequence after the backslash: `\uXXXX` (surrogate pairs
recombined, lone surrogates rejected: Lean characters cannot hold them) or a
named two-character escape. -/
def parseEscape : List Char → Option (Char × List Char)
  | [] => none
  | e :: rest2 =>
    if e = 'u' then parseUEscape rest2
    else (unescapeChar e).map (fun ec => (ec, rest2))

/-- Body of a string literal after the opening quote: literal characters up
to the closing quote, backslash escapes, raw control characters rejected as
in strict `json.loads`.  The fuel only bounds the recursion; every call
supplies more fuel than input characters, so it never runs dry. -/
def parseStrChars : Nat → List Char → Option (List Char × List Char)
  | 0, _ => none
  | _ + 1, [] => none
  | fuel + 1, c :: rest =>
    if c = '"' then some ([], rest)
    else if c = '\\' then
      (parseEscape rest).bind (fun er =>
        (parseStrChars fuel er.2).map (fun cr => (er.1 :: cr.1, cr.2)))
    else if c.toNat < 32 then none
    else (parseStrChars fuel rest).map (fun cr => (c :: cr.1, cr.2))

/-- Decimal digit test on a character. -/
def isDigitCh (c : Char) : Bool := 48 ≤ c.toNat && c.toNat ≤ 57

/-- Munch decimal digits into an accumulator. -/
def digitsLoop : List Char → Nat → Nat × List Char
  | [], acc => (acc, [])
  | ch :: rest, acc =>
    if isDigitCh ch then digitsLoop rest (10 * acc + (ch.toNat - 48)) else (acc, ch :: rest)

/-- The JSON integer token `0 | [1-9][0-9]*` (a leading zero takes no
further digits, as the `json.loads` number regex). -/
def parseNatTok : List Char → Option (Nat × List Char)
  | [] => none
  | ch :: rest =>
    if ch = '0' then some (0, rest)
    else if isDigitCh ch then some (digitsLoop rest (ch.toNat - 48))
    else none

/-- Strip an expected literal character sequence from the head of the input. -/
def stripLit : List Char → List Char → Option (List Char)
  | [], s => some s
  | _ :: _, [] => none
  | l :: ls, c :: cs => if c = l then stripLit ls cs else none

mutual

/-- One JSON value at the head of the input (compact fragment, no interior
whitespace, integer numbers); fuel bounds the nesting recursion. -/
def parseVal : Nat → List Char → Option (Json × List Char)
  | 0, _ => none
  | _ + 1, [] => none
  | fuel + 1, c :: rest =>
    if c = 'n' then (stripLit ['u', 'l', 'l'] rest).map (fun r => (Json.null, r))
    else if c = 't' then (stripLit ['r', 'u', 'e'] rest).map (fun r => (Json.bool true, r))
    else if c = 'f' then (stripLit ['a', 'l', 's', 'e'] rest).map (fun r => (Json.bool false, r))
    else if c = '"' then
      (parseStrChars (rest.length + 1) rest).map (fun cr => (Json.str (String.mk cr.1), cr.2))
    else if c = '[' then
      match rest with
      | [] => none
      | c2 :: rest2 =>
        if c2 = ']' then some (.arr [], rest2)
        else (parseElems fuel (c2 :: rest2)).map (fun vr => (Json.arr vr.1, vr.2))
    else if c = '{' then
      match rest with
      | [] => none
      | c2 :: rest2 =>
        if c2 = '}' then some (.obj [], rest2)
        else (parseMembers fuel (c2 :: rest2)).map (fun fr => (Json.obj fr.1, fr.2))
    else if c = '-' then
      (parseNatTok rest).map (fun nr => (Json.num (-(nr.1 : Int)), nr.2))
    else
      (parseNatTok (c :: rest)).map (fun nr => (Json.num (nr.1 : Int), nr.2))

/-- One or more comma-separated elements, closed by `]`. -/
def parseElems : Nat → List Char → Option (List Json × List Char)
  | 0, _ => none
  | fuel + 1, s =>
    (parseVal fuel s).bind (fun vr =>
      match vr.2 with
      | [] => none
      | rc :: r2 =>
        if rc = ',' then (parseElems fuel r2).map (fun p => (vr.1 :: p.1, p.2))
        else if rc = ']' then some ([vr.1], r2)
        else none)

/-- One or more comma-separated `"key":value` members, closed by `}`. -/
def parseMembers : Nat → List Char → Option (List (String × Json) × List Char)
  | 0, _ => none
  | fuel + 1, s =>
    match s with
    | [] => none
    | c :: s2 =>
      if c = '"' then
        (parseStrChars (s2.length + 1) s2).bind (fun kr =>
          match kr.2 with
          | [] => none
          | rc :: r2 =>
            if rc = ':' then
              (parseVal fuel r2).bind (fun vr =>
                match vr.2 with
                | [] => none
                | rc2 :: r4 =>
                  if rc2 = ',' then
                    (parseMembers fuel r4).map (fun p => ((String.mk kr.1, vr.1) :: p.1, p.2))
                  else if rc2 = '}' then some ([(String.mk kr.1, vr.1)], r4)
                  else none)
            else none)
      else none

end

/-- Decode a full compact document: one value consuming the whole input. -/
def jsonDecode (s : String) : Option Json :=
  (parseVal (s.toList.length + 1) s.toList).bind
    (fun jr => if jr.2 = [] then some jr.1 else none)

mutual

/-- Fuel sufficient for `parseVal` on the encoding of this value. -/
def jfuel : Json → Nat
  | .arr xs => efuel xs + 1
  | .obj fs => ffuel fs + 1
  | .str _ => 1
  | .num _ => 1
  | .bool _ => 1
  | .null => 1

/-- Fuel sufficient for `parseElems` on the encoding of these elements. -/
def efuel : List Json → Nat
  | [] => 1
  | x :: xs => max (jfuel x) (efuel xs) + 1

/-- Fuel sufficient for `parseMembers` on the encoding of these members. -/
def ffuel : List (String × Json) → Nat
  | [] => 1
  | (_, v) :: fs => max (jfuel v) (ffuel fs) + 1

end

/-! ## The `main` processing loop -/

/-- The `--format` choices of the command line. -/
inductive OutFormat where
  | json : OutFormat
  | readable : OutFormat
  | hashonly : OutFormat
deriving DecidableEq

/-- The `--hash` choices of the command line (argparse rejects anything else
before `main`'s processing starts). -/
inductive HashChoice where
  | md5 : HashChoice
  | sha1 : HashChoice
  | photodna : HashChoice
deriving DecidableEq

/-- Command-line spelling of a hash choice. -/
def HashChoice.str : HashChoice → String
  | .md5 => "md5"
  | .sha1 => "sha1"
  | .photodna => "photodna"

/-- State of `main`'s filtering loop: the `matches` list, the two counters,
the chunks printed to the console so far, and a pending exception. -/
structure LoopSt where
  matchesAcc : List Json
  found : Nat
  out : List String
  err : Option String

/-- Initial loop state. -/
def initLoopSt : LoopSt := ⟨[], 0, [], none⟩

/-- One iteration of `main`'s loop over `vic_parser.stream_items()`: on a
category match, count it, then either append it to `matches` (an output file
was requested, or the format is `json`) or print it immediately (`readable`
adds the `print` newline, `hashonly` prints the hash line as-is and prints
nothing for an empty hash). An exception poisons the state. -/
def loopStep (useOutputFile : Bool) (fmt : OutFormat) (ht : HashChoice) (cat : Int)
    (st : LoopSt) (item : Json) : LoopSt :=
  if st.err.isSome then st
  else if itemCategoryMatches item cat then
    let st1 : LoopSt := { st with found := st.found + 1 }
    if useOutputFile || fmt == OutFormat.json then
      { st1 with matchesAcc := st1.matchesAcc ++ [item] }
    else
      match fmt with
      | OutFormat.readable =>
        match format_readable item with
        | .ok s => { st1 with out := st1.out ++ [s ++ "\n"] }
        | .error e => { st1 with err := some e }
      | OutFormat.hashonly =>
        match format_hashonly item ht.str with
        | .ok (some line) => { st1 with out := st1.out ++ [line] }
        | .ok none => st1
        | .error e => { st1 with err := some e }
      | OutFormat.json => st1
  else st

/-- Model of the `main` filtering loop over the whole item stream. -/
def runLoop (useOutputFile : Bool) (fmt : OutFormat) (ht : HashChoice) (cat : Int)
    (source : List Json) : LoopSt :=
  source.foldl (loopStep useOutputFile fmt ht cat) initLoopSt

/-- The hash-only output-file loop: writes each non-empty hash line and
counts it in `hash_matches_processed_count`. -/
def hashFileFold (ht : HashChoice) : List Json → Nat → String → Except String (Nat × String)
  | [], cnt, acc => .ok (cnt, acc)
  | item :: rest, cnt, acc =>
    match format_hashonly item ht.str with
    | .ok (some line) => hashFileFold ht rest (cnt + 1) (acc ++ line)
    | .ok none => hashFileFold ht rest cnt acc
    | .error e => .error e

/-- The readable output-file loop: writes each block. -/
def readableFileFold : List Json → String → Except String String
  | [], acc => .ok acc
  | item :: rest, acc =>
    match format_readable item with
    | .ok s => readableFileFold rest (acc ++ s)
    | .error e => .error e

/-- The `Found N matches for Category C` summary line. -/
def mkSummary (found : Nat) (cat : Int) : String :=
  "\nFound " ++ toString found ++ " matches for Category " ++ intDec cat

/-- The hash-shortfall warning line printed when
`hash_matches_processed_count < matches_found_count`. -/
def mkWarning (omitted : Nat) (ht : HashChoice) : String :=
  "Warning: " ++ toString omitted ++ " " ++ ht.str ++
    " hashes were empty and not included in the output."

/-- The final warning decision of `main`. -/
def warnFor (fmt : OutFormat) (ht : HashChoice) (found processed : Nat) : Option String :=
  if fmt = OutFormat.hashonly ∧ processed < found then
    some (mkWarning (found - processed) ht)
  else none

/-- Observable outcome of one `main` run: the final `matches` list, the two
counters, the chunks streamed to the console during the loop, the summary
line, the bytes written to the output file, the envelope printed to the
console by the `json` format, the final warning, the error message of a
fatal exception, and the completion signal. -/
structure RunResult where
  matchesAcc : List Json
  found : Nat
  processed : Nat
  stream_out : List String
  summary : Option String
  file_out : Option String
  console_json : Option String
  warning : Option String
  errorMsg : Option String
  exitCode : Nat

/-- Model of `main` after argument parsing, on a source whose item stream yields
`source`: the filtering loop, then the output-file block
(`if args.output and matches`), else the console `json` print, then the
hash-shortfall warning; any exception is caught and the run signals 1. -/
def mainRun (source : List Json) (cat : Int) (ctx : Json) (useOutputFile : Bool)
    (fmt : OutFormat) (ht : HashChoice) : RunResult :=
  let st := runLoop useOutputFile fmt ht cat source
  match st.err with
  | some e =>
    { matchesAcc := st.matchesAcc, found := st.found, processed := 0, stream_out := st.out,
      summary := none, file_out := none, console_json := none, warning := none,
      errorMsg := some ("Error: " ++ e), exitCode := 1 }
  | none =>
    let summary := some (mkSummary st.found cat)
    if useOutputFile && !st.matchesAcc.isEmpty then
      match fmt with
      | OutFormat.readable =>
        match readableFileFold st.matchesAcc "" with
        | .ok content =>
          { matchesAcc := st.matchesAcc, found := st.found, processed := 0, stream_out := st.out,
            summary := summary, file_out := some content, console_json := none,
            warning := warnFor fmt ht st.found 0, errorMsg := none, exitCode := 0 }
        | .error e =>
          { matchesAcc := st.matchesAcc, found := st.found, processed := 0, stream_out := st.out,
            summary := summary, file_out := none, console_json := none, warning := none,
            errorMsg := some ("Error: " ++ e), exitCode := 1 }
      | OutFormat.hashonly =>
        match hashFileFold ht st.matchesAcc 0 "" with
        | .ok (cnt, content) =>
          { matchesAcc := st.matchesAcc, found := st.found, processed := cnt, stream_out := st.out,
            summary := summary, file_out := some content, console_json := none,
            warning := warnFor fmt ht st.found cnt, errorMsg := none, exitCode := 0 }
        | .error e =>
          { matchesAcc := st.matchesAcc, found := st.found, processed := 0, stream_out := st.out,
            summary := summary, file_out := none, console_json := none, warning := none,
            errorMsg := some ("Error: " ++ e), exitCode := 1 }
      | OutFormat.json =>
        { matchesAcc := st.matchesAcc, found := st.found, processed := 0, stream_out := st.out,
          summary := summary, file_out := some (write_json_file st.matchesAcc ctx),
          console_json := none, warning := warnFor fmt ht st.found 0,
          errorMsg := none, exitCode := 0 }
    else if fmt = OutFormat.json then
      { matchesAcc := st.matchesAcc, found := st.found, processed := 0, stream_out := st.out,
        summary := summary, file_out := none,
        console_json := some (format_json st.matchesAcc ctx),
        warning := warnFor fmt ht st.found 0, errorMsg := none, exitCode := 0 }
    else
      { matchesAcc := st.matchesAcc, found := st.found, processed := 0, stream_out := st.out,
        summary := summary, file_out := none, console_json := none,
        warning := warnFor fmt ht st.found 0, errorMsg := none, exitCode := 0 }

/-- Model of `main` on a source whose item stream yields `goodItems` and then raises
`ijson.JSONError` (malformed input hit mid-scan during the filtering pass):
the loop output stands as flushed, the handler prints the error message and
the run signals 1; no summary, file, envelope or warning is produced. -/
def mainRunTrunc (goodItems : List Json) (cat : Int) (useOutputFile : Bool)
    (fmt : OutFormat) (ht : HashChoice) (emsg : String) : RunResult :=
  let st := runLoop useOutputFile fmt ht cat goodItems
  match st.err with
  | some e =>
    { matchesAcc := st.matchesAcc, found := st.found, processed := 0, stream_out := st.out,
      summary := none, file_out := none, console_json := none, warning := none,
      errorMsg := some ("Error: " ++ e), exitCode := 1 }
  | none =>
    { matchesAcc := st.matchesAcc, found := st.found, processed := 0, stream_out := st.out,
      summary := none, file_out := none, console_json := none, warning := none,
      errorMsg := some ("Error: Invalid JSON file: " ++ emsg), exitCode := 1 }

/-! ## Concrete sources used by the claims -/

/-- Record 1 of the spec scenario, category 0. -/
def scenRec1 : Json := .obj [("MediaID", .str "m1"), ("Category", .num 0)]

/-- Record 2 of the spec scenario, category 1. -/
def scenRec2 : Json := .obj [("MediaID", .str "m2"), ("Category", .num 1)]

/-- Record 3 of the spec scenario, category 1. -/
def scenRec3 : Json := .obj [("MediaID", .str "m3"), ("Category", .num 1)]

/-- Record 4 of the spec scenario, category 2. -/
def scenRec4 : Json := .obj [("MediaID", .str "m4"), ("Category", .num 2)]

/-- Record 5 of the spec scenario, category 1. -/
def scenRec5 : Json := .obj [("MediaID", .str "m5"), ("Category", .num 1)]

/-- The spec scenario source: 5 records with categories 0, 1, 1, 2, 1. -/
def scenSource : List Json := [scenRec1, scenRec2, scenRec3, scenRec4, scenRec5]

/-- A matched record whose MD5 hash is present and non-empty. -/
def hashRec : Json := .obj [("Category", .num 1), ("MD5", .str "abc")]

/-! ## Proof infrastructure -/

/-- Specification recursion for the decimal digits of a natural number. -/
def natDigitsRec (n : Nat) : List Char :=
  if _h : n = 0 then [] else natDigitsRec (n / 10) ++ [decDigit (n % 10)]
termination_by n
decreasing_by exact Nat.div_lt_self (by omega) (by omega)

/-- The input does not begin with a decimal digit. -/
def noDigitHead : List Char → Bool
  | [] => true
  | c :: _ => !isDigitCh c

/-- Induction over `Json` values through the nested lists. -/
theorem json_ind (P : Json → Prop)
    (hnull : P .null) (hbool : ∀ b, P (.bool b)) (hnum : ∀ n, P (.num n))
    (hstr : ∀ s, P (.str s))
    (harr : ∀ xs, (∀ x ∈ xs, P x) → P (.arr xs))
    (hobj : ∀ fs, (∀ kv ∈ fs, P kv.2) → P (.obj fs)) :
    ∀ j, P j := by
  have main : ∀ (k : Nat) (j : Json), sizeOf j ≤ k → P j := by
    intro k
    induction k with
    | zero => intro j hj; cases j <;> simp at hj
    | succ k ih =>
      intro j hj
      cases j with
      | null => exact hnull
      | bool b => exact hbool b
      | num n => exact hnum n
      | str s => exact hstr s
      | arr xs =>
        refine harr xs (fun x hx => ih x ?_)
        have h1 := List.sizeOf_lt_of_mem hx
        simp only [Json.arr.sizeOf_spec] at hj
        omega
      | obj fs =>
        refine hobj fs (fun kv hkv => ih kv.2 ?_)
        have h1 := List.sizeOf_lt_of_mem hkv
        have h2 : sizeOf kv.2 < sizeOf kv := by
          obtain ⟨a, b⟩ := kv
          simp
        simp only [Json.obj.sizeOf_spec] at hj
        omega
  exact fun j => main (sizeOf j) j le_rfl

theorem natDigitsCore_spec : ∀ (fuel n : Nat) (acc : List Char), n ≤ fuel →
    natDigitsCore fuel n acc = natDigitsRec n ++ acc := by
  intro fuel
  induction fuel with
  | zero =>
    intro n acc h
    obtain rfl : n = 0 := by omega
    rw [natDigitsCore, natDigitsRec]
    simp
  | succ fuel ih =>
    intro n acc h
    by_cases h0 : n = 0
    · subst h0
      rw [natDigitsCore, if_pos rfl, natDigitsRec]
      simp
    · rw [natDigitsCore, if_neg h0]
      have hlt : n / 10 < n := Nat.div_lt_self (by omega) (by omega)
      rw [ih (n / 10) _ (by omega)]
      conv_rhs => rw [natDigitsRec, dif_neg h0]
      simp

theorem natDec_pos (n : Nat) (h : n ≠ 0) : natDec n = natDigitsRec n := by
  rw [natDec, if_neg h, natDigitsCore_spec n n [] le_rfl, List.append_nil]

theorem decDigit_toNat : ∀ m, m < 10 → (decDigit m).toNat = 48 + m := by decide

theorem isDigitCh_decDigit : ∀ m, m < 10 → isDigitCh (decDigit m) = true := by decide

theorem natDigitsRec_head : ∀ n, n ≠ 0 →
    ∃ c cs, natDigitsRec n = c :: cs ∧ isDigitCh c = true ∧ c ≠ '0' := by
  intro n
  induction n using Nat.strong_induction_on with
  | _ n ih =>
    intro h
    rw [natDigitsRec, dif_neg h]
    by_cases h10 : n / 10 = 0
    · rw [natDigitsRec, dif_pos h10]
      have hn : n < 10 := by omega
      have hmod : n % 10 = n := Nat.mod_eq_of_lt hn
      refine ⟨decDigit (n % 10), [], by simp, isDigitCh_decDigit _ (by omega), ?_⟩
      intro hc
      have h48 : (decDigit (n % 10)).toNat = 48 + n % 10 := decDigit_toNat _ (by omega)
      rw [hc] at h48
      have : ('0').toNat = 48 := by decide
      omega
    · obtain ⟨c, cs, hrec, hdig, hne⟩ := ih (n / 10) (Nat.div_lt_self (by omega) (by omega)) h10
      exact ⟨c, cs ++ [decDigit (n % 10)], by rw [hrec]; simp, hdig, hne⟩

theorem digitsLoop_stop (rest : List Char) (acc : Nat) (h : noDigitHead rest = true) :
    digitsLoop rest acc = (acc, rest) := by
  cases rest with
  | nil => rfl
  | cons c cs =>
    simp only [noDigitHead, Bool.not_eq_true'] at h
    rw [digitsLoop, if_neg (by simp [h])]

theorem digitsLoop_append : ∀ (n acc : Nat) (rest : List Char),
    digitsLoop (natDigitsRec n ++ rest) acc =
      digitsLoop rest (acc * 10 ^ (natDigitsRec n).length + n) := by
  intro n
  induction n using Nat.strong_induction_on with
  | _ n ih =>
    intro acc rest
    by_cases h0 : n = 0
    · subst h0
      rw [natDigitsRec]
      simp
    · rw [natDigitsRec, dif_neg h0]
      have hlt : n / 10 < n := Nat.div_lt_self (by omega) (by omega)
      rw [List.append_assoc, List.singleton_append, ih (n / 10) hlt acc _]
      rw [digitsLoop, if_pos (isDigitCh_decDigit _ (by omega))]
      rw [decDigit_toNat _ (by omega)]
      congr 1
      have hm := Nat.div_add_mod n 10
      have hlen : (natDigitsRec (n / 10) ++ [decDigit (n % 10)]).length =
          (natDigitsRec (n / 10)).length + 1 := by simp
      rw [hlen, Nat.pow_succ]
      have hx : 48 + n % 10 - 48 = n % 10 := by omega
      rw [hx]
      calc 10 * (acc * 10 ^ (natDigitsRec (n / 10)).length + n / 10) + n % 10
          = acc * (10 ^ (natDigitsRec (n / 10)).length * 10) + (10 * (n / 10) + n % 10) := by
            ring
        _ = acc * (10 ^ (natDigitsRec (n / 10)).length * 10) + n := by rw [hm]

theorem parseNatTok_natDec (n : Nat) (rest : List Char) (h : noDigitHead rest = true) :
    parseNatTok (natDec n ++ rest) = some (n, rest) := by
  by_cases h0 : n = 0
  · subst h0
    rw [show natDec 0 = ['0'] from rfl]
    rw [List.singleton_append, parseNatTok, if_pos rfl]
  · obtain ⟨c, cs, hrec, hdig, hne⟩ := natDigitsRec_head n h0
    rw [natDec_pos n h0, hrec, List.cons_append, parseNatTok, if_neg hne,
      if_pos hdig]
    have h1 : digitsLoop (c :: (cs ++ rest)) 0 = digitsLoop (cs ++ rest) (c.toNat - 48) := by
      rw [digitsLoop, if_pos hdig]
      norm_num
    have h2 : digitsLoop (c :: (cs ++ rest)) 0 = (n, rest) := by
      have hc : c :: (cs ++ rest) = natDigitsRec n ++ rest := by rw [hrec]; simp
      rw [hc, digitsLoop_append n 0 rest, digitsLoop_stop rest _ h]
      simp
    rw [← h1, h2]

theorem char_valid_nat (c : Char) : c.toNat < 55296 ∨ (57343 < c.toNat ∧ c.toNat < 1114112) :=
  c.valid

theorem hexVal_hexDigit : ∀ k, k < 16 → hexVal (hexDigit k) = some k := by decide

theorem hex4Val_hex4 (n : Nat) (h : n < 65536) :
    hex4Val (hexDigit (n / 4096 % 16)) (hexDigit (n / 256 % 16))
      (hexDigit (n / 16 % 16)) (hexDigit (n % 16)) = some n := by
  have e1 := hexVal_hexDigit (n / 4096 % 16) (Nat.mod_lt _ (by omega))
  have e2 := hexVal_hexDigit (n / 256 % 16) (Nat.mod_lt _ (by omega))
  have e3 := hexVal_hexDigit (n / 16 % 16) (Nat.mod_lt _ (by omega))
  have e4 := hexVal_hexDigit (n % 16) (Nat.mod_lt _ (by omega))
  simp only [hex4Val, e1, e2, e3, e4]
  congr 1
  omega

theorem encodeChar_ne_nil (c : Char) : encodeChar c ≠ [] := by
  unfold encodeChar
  split_ifs <;> simp

theorem length_le_encStrChars (cs : List Char) : cs.length ≤ (encStrChars cs).length := by
  induction cs with
  | nil => simp [encStrChars]
  | cons c cs ih =>
    have hpos : 0 < (encodeChar c).length :=
      List.length_pos.mpr (encodeChar_ne_nil c)
    simp only [encStrChars, List.map_cons, List.flatten_cons, List.length_append,
      List.length_cons]
    simp only [encStrChars] at ih
    omega

theorem obind_some {α β : Type} (x : α) (g : α → Option β) : Option.bind (some x) g = g x := rfl

theorem omap_some {α β : Type} (x : α) (g : α → β) : Option.map g (some x) = some (g x) := rfl

theorem parseEscape_cons (e : Char) (t : List Char) :
    parseEscape (e :: t) =
      if e = 'u' then parseUEscape t else (unescapeChar e).map (fun ec => (ec, t)) := rfl

theorem parseUEscape_cons (a b c d : Char) (t : List Char) :
    parseUEscape (a :: b :: c :: d :: t) =
      (hex4Val a b c d).bind (fun n =>
        if 55296 ≤ n ∧ n ≤ 56319 then parseLowSurrogate n t
        else if 56320 ≤ n ∧ n ≤ 57343 then none
        else some (Char.ofNat n, t)) := rfl

theorem parseLowSurrogate_cons (n : Nat) (b1 b2 g1 g2 g3 g4 : Char) (t : List Char) :
    parseLowSurrogate n (b1 :: b2 :: g1 :: g2 :: g3 :: g4 :: t) =
      (if b1 = '\\' ∧ b2 = 'u' then
        (hex4Val g1 g2 g3 g4).bind (fun m =>
          if 56320 ≤ m ∧ m ≤ 57343 then
            some (Char.ofNat (65536 + 1024 * (n - 55296) + (m - 56320)), t)
          else none)
      else none) := rfl

theorem parseStrChars_enc : ∀ (cs : List Char) (fuel : Nat) (rest : List Char),
    cs.length < fuel →
    parseStrChars fuel (encStrChars cs ++ '"' :: rest) = some (cs, rest) := by
  intro cs
  induction cs with
  | nil =>
    intro fuel rest h
    obtain ⟨f, rfl⟩ : ∃ f, fuel = f + 1 := ⟨fuel - 1, by omega⟩
    rw [show encStrChars [] = [] from rfl, List.nil_append, parseStrChars, if_pos rfl]
  | cons c cs ih =>
    intro fuel rest h
    obtain ⟨f, rfl⟩ : ∃ f, fuel = f + 1 := ⟨fuel - 1, by omega⟩
    have hih := ih f rest (by simp at h; omega)
    have hexp : encStrChars (c :: cs) ++ '"' :: rest =
        encodeChar c ++ (encStrChars cs ++ '"' :: rest) := by
      simp [encStrChars]
    rw [hexp]
    by_cases h1 : c = '"'
    · subst h1
      rw [show encodeChar '"' = ['\\', '"'] from rfl]
      simp only [List.cons_append, List.nil_append]
      rw [parseStrChars, if_neg (by decide), if_pos rfl, parseEscape_cons,
        if_neg (by decide), show unescapeChar '"' = some '"' from rfl, omap_some,
        obind_some, hih, omap_some]
    · by_cases h2 : c = '\\'
      · subst h2
        rw [show encodeChar '\\' = ['\\', '\\'] from rfl]
        simp only [List.cons_append, List.nil_append]
        rw [parseStrChars, if_neg (by decide), if_pos rfl, parseEscape_cons,
          if_neg (by decide), show unescapeChar '\\' = some '\\' from rfl, omap_some,
          obind_some, hih, omap_some]
      · by_cases h3 : c = '\n'
        · subst h3
          rw [show encodeChar '\n' = ['\\', 'n'] from rfl]
          simp only [List.cons_append, List.nil_append]
          rw [parseStrChars, if_neg (by decide), if_pos rfl, parseEscape_cons,
            if_neg (by decide), show unescapeChar 'n' = some '\n' from rfl, omap_some,
            obind_some, hih, omap_some]
        · by_cases h4 : c = '\r'
          · subst h4
            rw [show encodeChar '\r' = ['\\', 'r'] from rfl]
            simp only [List.cons_append, List.nil_append]
            rw [parseStrChars, if_neg (by decide), if_pos rfl, parseEscape_cons,
              if_neg (by decide), show unescapeChar 'r' = some '\r' from rfl, omap_some,
              obind_some, hih, omap_some]
          · by_cases h5 : c = '\t'
            · subst h5
              rw [show encodeChar '\t' = ['\\', 't'] from rfl]
              simp only [List.cons_append, List.nil_append]
              rw [parseStrChars, if_neg (by decide), if_pos rfl, parseEscape_cons,
                if_neg (by decide), show unescapeChar 't' = some '\t' from rfl, omap_some,
                obind_some, hih, omap_some]
            · by_cases h6 : c.toNat = 8
              · have hc : c = Char.ofNat 8 := by rw [← Char.ofNat_toNat c, h6]
                subst hc
                rw [show encodeChar (Char.ofNat 8) = ['\\', 'b'] from by decide]
                simp only [List.cons_append, List.nil_append]
                rw [parseStrChars, if_neg (by decide), if_pos rfl, parseEscape_cons,
                  if_neg (by decide),
                  show unescapeChar 'b' = some (Char.ofNat 8) from rfl, omap_some,
                  obind_some, hih, omap_some]
              · by_cases h7 : c.toNat = 12
                · have hc : c = Char.ofNat 12 := by rw [← Char.ofNat_toNat c, h7]
                  subst hc
                  rw [show encodeChar (Char.ofNat 12) = ['\\', 'f'] from by decide]
                  simp only [List.cons_append, List.nil_append]
                  rw [parseStrChars, if_neg (by decide), if_pos rfl, parseEscape_cons,
                    if_neg (by decide),
                    show unescapeChar 'f' = some (Char.ofNat 12) from rfl, omap_some,
                    obind_some, hih, omap_some]
                · by_cases h8 : 32 ≤ c.toNat ∧ c.toNat ≤ 126
                  · rw [encodeChar, if_neg h1, if_neg h2, if_neg h3, if_neg h4, if_neg h5,
                      if_neg h6, if_neg h7, if_pos h8]
                    simp only [List.cons_append, List.nil_append]
                    rw [parseStrChars, if_neg h1, if_neg h2, if_neg (by omega), hih, omap_some]
                  · by_cases h9 : c.toNat < 65536
                    · rw [encodeChar, if_neg h1, if_neg h2, if_neg h3, if_neg h4, if_neg h5,
                        if_neg h6, if_neg h7, if_neg h8, if_pos h9, hex4]
                      simp only [List.cons_append, List.nil_append]
                      rw [parseStrChars, if_neg (by decide), if_pos rfl, parseEscape_cons,
                        if_pos rfl, parseUEscape_cons, hex4Val_hex4 c.toNat h9, obind_some]
                      have hv := char_valid_nat c
                      rw [if_neg (by omega), if_neg (by omega), Char.ofNat_toNat,
                        obind_some, hih, omap_some]
                    · rw [encodeChar, if_neg h1, if_neg h2, if_neg h3, if_neg h4, if_neg h5,
                        if_neg h6, if_neg h7, if_neg h8, if_neg h9, hex4, hex4]
                      have hv := char_valid_nat c
                      simp only [List.cons_append, List.nil_append, List.append_assoc]
                      rw [parseStrChars, if_neg (by decide), if_pos rfl, parseEscape_cons,
                        if_pos rfl, parseUEscape_cons,
                        hex4Val_hex4 (55296 + (c.toNat - 65536) / 1024) (by omega),
                        obind_some, if_pos (by omega), parseLowSurrogate_cons,
                        if_pos ⟨rfl, rfl⟩,
                        hex4Val_hex4 (56320 + (c.toNat - 65536) % 1024) (by omega),
                        obind_some, if_pos (by omega)]
                      have harg : 65536 + 1024 * (55296 + (c.toNat - 65536) / 1024 - 55296) +
                          (56320 + (c.toNat - 65536) % 1024 - 56320) = c.toNat := by omega
                      rw [harg, Char.ofNat_toNat, obind_some, hih, omap_some]

theorem natDec_head : ∀ n : Nat, ∃ c cs, natDec n = c :: cs ∧ isDigitCh c = true := by
  intro n
  by_cases h : n = 0
  · exact ⟨'0', [], by rw [h]; rfl, by decide⟩
  · obtain ⟨c, cs, hrec, hdig, hne⟩ := natDigitsRec_head n h
    exact ⟨c, cs, by rw [natDec_pos n h, hrec], hdig⟩

theorem parseVal_neg_num (f : Nat) (t : List Char) :
    parseVal (f + 1) ('-' :: t) = (parseNatTok t).map (fun nr => (Json.num (-(nr.1 : Int)), nr.2)) := rfl

theorem parseVal_digit (f : Nat) (c : Char) (t : List Char) (h : isDigitCh c = true) :
    parseVal (f + 1) (c :: t) =
      (parseNatTok (c :: t)).map (fun nr => (Json.num (nr.1 : Int), nr.2)) := by
  have hne : ∀ d : Char, isDigitCh d = false → ¬ c = d := by
    intro d hd he
    rw [he, hd] at h
    cases h
  simp only [parseVal]
  rw [if_neg (hne _ (by decide)), if_neg (hne _ (by decide)),
    if_neg (hne _ (by decide)), if_neg (hne _ (by decide)), if_neg (hne _ (by decide)),
    if_neg (hne _ (by decide)), if_neg (hne _ (by decide))]

theorem parseVal_num (f : Nat) (i : Int) (rest : List Char) (h : noDigitHead rest = true) :
    parseVal (f + 1) (intDecChars i ++ rest) = some (.num i, rest) := by
  by_cases hneg : i < 0
  · rw [intDecChars, if_pos hneg, List.cons_append, parseVal_neg_num,
      parseNatTok_natDec _ _ h, omap_some]
    have : -((i.natAbs : Nat) : Int) = i := by omega
    rw [this]
  · rw [intDecChars, if_neg hneg]
    obtain ⟨c, cs, hc, hdig⟩ := natDec_head i.natAbs
    rw [hc, List.cons_append, parseVal_digit _ _ _ hdig, ← List.cons_append, ← hc,
      parseNatTok_natDec _ _ h, omap_some]
    have : ((i.natAbs : Nat) : Int) = i := by omega
    rw [this]

theorem parseVal_str (f : Nat) (s : String) (rest : List Char) :
    parseVal (f + 1) (encStringLit s ++ rest) = some (.str s, rest) := by
  have hs : encStringLit s ++ rest = '"' :: (encStrChars s.toList ++ '"' :: rest) := by
    simp [encStringLit]
  rw [hs]
  have hq : parseVal (f + 1) ('"' :: (encStrChars s.toList ++ '"' :: rest)) =
      (parseStrChars ((encStrChars s.toList ++ '"' :: rest).length + 1)
        (encStrChars s.toList ++ '"' :: rest)).map
        (fun cr => (Json.str (String.mk cr.1), cr.2)) := rfl
  have hlen : s.toList.length < (encStrChars s.toList ++ '"' :: rest).length + 1 := by
    rw [List.length_append]
    have := length_le_encStrChars s.toList
    omega
  rw [hq, parseStrChars_enc s.toList _ rest hlen, omap_some]
  rfl

theorem parseVal_arr_nil (f : Nat) (rest : List Char) :
    parseVal (f + 1) ('[' :: ']' :: rest) = some (.arr [], rest) := rfl

theorem parseVal_obj_nil (f : Nat) (rest : List Char) :
    parseVal (f + 1) ('{' :: '}' :: rest) = some (.obj [], rest) := rfl

theorem parseVal_arr_go (f : Nat) (c2 : Char) (t : List Char) (h : ¬ c2 = ']') :
    parseVal (f + 1) ('[' :: c2 :: t) =
      (parseElems f (c2 :: t)).map (fun vr => (Json.arr vr.1, vr.2)) := by
  have hstep : parseVal (f + 1) ('[' :: c2 :: t) =
      if c2 = ']' then some (.arr [], t)
      else (parseElems f (c2 :: t)).map (fun vr => (Json.arr vr.1, vr.2)) := rfl
  rw [hstep, if_neg h]

theorem parseVal_obj_go (f : Nat) (t : List Char) :
    parseVal (f + 1) ('{' :: '"' :: t) =
      (parseMembers f ('"' :: t)).map (fun fr => (Json.obj fr.1, fr.2)) := rfl

theorem parseMembers_quote (f : Nat) (t : List Char) :
    parseMembers (f + 1) ('"' :: t) =
      (parseStrChars (t.length + 1) t).bind (fun kr =>
        match kr.2 with
        | [] => none
        | rc :: r2 =>
          if rc = ':' then
            (parseVal f r2).bind (fun vr =>
              match vr.2 with
              | [] => none
              | rc2 :: r4 =>
                if rc2 = ',' then
                  (parseMembers f r4).map (fun p => ((String.mk kr.1, vr.1) :: p.1, p.2))
                else if rc2 = '}' then some ([(String.mk kr.1, vr.1)], r4)
                else none)
          else none) := rfl

theorem noDigitHead_cons (c : Char) (t : List Char) : noDigitHead (c :: t) = !isDigitCh c := rfl

theorem jfuel_pos : ∀ j, 1 ≤ jfuel j := by
  intro j
  cases j <;> simp [jfuel]

theorem efuel_pos : ∀ xs, 1 ≤ efuel xs := by
  intro xs
  cases xs <;> simp [efuel]

theorem ffuel_pos : ∀ (fs : List (String × Json)), 1 ≤ ffuel fs := by
  intro fs
  cases fs with
  | nil => simp [ffuel]
  | cons kv fs => obtain ⟨k, v⟩ := kv; simp [ffuel]

theorem parseVal_null (f : Nat) (rest : List Char) :
    parseVal (f + 1) ('n' :: 'u' :: 'l' :: 'l' :: rest) = some (.null, rest) := rfl

theorem parseVal_true (f : Nat) (rest : List Char) :
    parseVal (f + 1) ('t' :: 'r' :: 'u' :: 'e' :: rest) = some (.bool true, rest) := rfl

theorem parseVal_false (f : Nat) (rest : List Char) :
    parseVal (f + 1) ('f' :: 'a' :: 'l' :: 's' :: 'e' :: rest) = some (.bool false, rest) := rfl

theorem parseElems_enc : ∀ (xs : List Json) (x : Json),
    (∀ y ∈ x :: xs, ∀ (fuel : Nat) (rest : List Char), jfuel y ≤ fuel →
      noDigitHead rest = true → parseVal fuel (encVal y ++ rest) = some (y, rest)) →
    ∀ (fuel : Nat) (rest : List Char), efuel (x :: xs) ≤ fuel →
    parseElems fuel ((encVal x ++ encElems xs) ++ rest) = some (x :: xs, rest) := by
  intro xs
  induction xs with
  | nil =>
    intro x hP fuel rest hf
    obtain ⟨f, rfl⟩ : ∃ f, fuel = f + 1 := ⟨fuel - 1, by have := efuel_pos [x]; omega⟩
    have hs : (encVal x ++ encElems ([] : List Json)) ++ rest = encVal x ++ (']' :: rest) := by
      simp [encElems]
    rw [hs]
    have hfx : jfuel x ≤ f := by simp [efuel] at hf; omega
    have hx := hP x (by simp) f (']' :: rest) hfx (by rw [noDigitHead_cons]; decide)
    simp only [parseElems, hx, obind_some]
    simp
  | cons y ys ih =>
    intro x hP fuel rest hf
    obtain ⟨f, rfl⟩ : ∃ f, fuel = f + 1 := ⟨fuel - 1, by have := efuel_pos (x :: y :: ys); omega⟩
    have hs : (encVal x ++ encElems (y :: ys)) ++ rest =
        encVal x ++ (',' :: ((encVal y ++ encElems ys) ++ rest)) := by
      simp [encElems]
    rw [hs]
    have hfx : jfuel x ≤ f := by simp [efuel] at hf; omega
    have hx := hP x (by simp) f (',' :: ((encVal y ++ encElems ys) ++ rest)) hfx
      (by rw [noDigitHead_cons]; decide)
    simp only [parseElems, hx, obind_some]
    simp only [if_true]
    have hys := ih y (fun z hz => hP z (List.mem_cons_of_mem x hz)) f rest
      (by simp [efuel] at hf ⊢; omega)
    rw [hys, omap_some]

theorem parseMembers_enc : ∀ (fs : List (String × Json)) (k : String) (v : Json),
    (∀ kv ∈ (k, v) :: fs, ∀ (fuel : Nat) (rest : List Char), jfuel kv.2 ≤ fuel →
      noDigitHead rest = true → parseVal fuel (encVal kv.2 ++ rest) = some (kv.2, rest)) →
    ∀ (fuel : Nat) (rest : List Char), ffuel ((k, v) :: fs) ≤ fuel →
    parseMembers fuel ((encStringLit k ++ ':' :: encVal v ++ encFields fs) ++ rest) =
      some ((k, v) :: fs, rest) := by
  intro fs
  induction fs with
  | nil =>
    intro k v hP fuel rest hf
    obtain ⟨f, rfl⟩ : ∃ f, fuel = f + 1 := ⟨fuel - 1, by have := ffuel_pos [(k, v)]; omega⟩
    have hs : (encStringLit k ++ ':' :: encVal v ++ encFields ([] : List (String × Json))) ++ rest =
        '"' :: (encStrChars k.toList ++ '"' :: (':' :: (encVal v ++ ('}' :: rest)))) := by
      simp [encStringLit, encFields]
    rw [hs, parseMembers_quote]
    have hlen : k.toList.length <
        (encStrChars k.toList ++ '"' :: (':' :: (encVal v ++ ('}' :: rest)))).length + 1 := by
      rw [List.length_append]
      have := length_le_encStrChars k.toList
      omega
    rw [parseStrChars_enc k.toList _ _ hlen]
    simp only [obind_some]
    simp only [if_true]
    have hfv : jfuel v ≤ f := by simp [ffuel] at hf; omega
    have hv := hP (k, v) (by simp) f ('}' :: rest) hfv (by rw [noDigitHead_cons]; decide)
    simp only at hv
    simp only [hv, obind_some]
    simp
  | cons kv fs ih =>
    intro k v hP fuel rest hf
    obtain ⟨k2, v2⟩ := kv
    obtain ⟨f, rfl⟩ : ∃ f, fuel = f + 1 :=
      ⟨fuel - 1, by have := ffuel_pos ((k, v) :: (k2, v2) :: fs); omega⟩
    have hs : (encStringLit k ++ ':' :: encVal v ++ encFields ((k2, v2) :: fs)) ++ rest =
        '"' :: (encStrChars k.toList ++ '"' :: (':' :: (encVal v ++
          (',' :: ((encStringLit k2 ++ ':' :: encVal v2 ++ encFields fs) ++ rest))))) := by
      simp [encStringLit, encFields]
    rw [hs, parseMembers_quote]
    have hlen : k.toList.length <
        (encStrChars k.toList ++ '"' :: (':' :: (encVal v ++
          (',' :: ((encStringLit k2 ++ ':' :: encVal v2 ++ encFields fs) ++ rest))))).length + 1 := by
      rw [List.length_append]
      have := length_le_encStrChars k.toList
      omega
    rw [parseStrChars_enc k.toList _ _ hlen]
    simp only [obind_some]
    simp only [if_true]
    have hfv : jfuel v ≤ f := by simp [ffuel] at hf; omega
    have hv := hP (k, v) (by simp) f
      (',' :: ((encStringLit k2 ++ ':' :: encVal v2 ++ encFields fs) ++ rest)) hfv
      (by rw [noDigitHead_cons]; decide)
    simp only at hv
    simp only [hv, obind_some]
    simp only [if_true]
    have hrec := ih k2 v2 (fun z hz => hP z (List.mem_cons_of_mem (k, v) hz)) f rest
      (by simp [ffuel] at hf ⊢; omega)
    rw [hrec, omap_some]
    rfl

theorem encVal_head (j : Json) : ∃ c cs, encVal j = c :: cs ∧ ¬ c = ']' := by
  cases j with
  | null => exact ⟨'n', _, rfl, by decide⟩
  | bool b =>
    cases b with
    | false => exact ⟨'f', _, rfl, by decide⟩
    | true => exact ⟨'t', _, rfl, by decide⟩
  | num i =>
    by_cases hneg : i < 0
    · refine ⟨'-', natDec i.natAbs, ?_, by decide⟩
      simp only [encVal, intDecChars, if_pos hneg]
    · obtain ⟨c, cs, hc, hdig⟩ := natDec_head i.natAbs
      refine ⟨c, cs, ?_, ?_⟩
      · simp only [encVal, intDecChars, if_neg hneg, hc]
      · intro he
        rw [he] at hdig
        exact absurd hdig (by decide)
  | str s => exact ⟨'"', _, rfl, by decide⟩
  | arr xs =>
    cases xs with
    | nil => exact ⟨'[', _, rfl, by decide⟩
    | cons x xs => exact ⟨'[', _, rfl, by decide⟩
  | obj fs =>
    cases fs with
    | nil => exact ⟨'{', _, rfl, by decide⟩
    | cons kv fs =>
      obtain ⟨k, v⟩ := kv
      exact ⟨'{', _, rfl, by decide⟩

theorem encElems_length_pos (xs : List Json) : 1 ≤ (encElems xs).length := by
  cases xs <;> simp [encElems]

theorem encFields_length_pos (fs : List (String × Json)) : 1 ≤ (encFields fs).length := by
  cases fs with
  | nil => simp [encFields]
  | cons kv fs => obtain ⟨k, v⟩ := kv; simp [encFields]

theorem encVal_length_pos (j : Json) : 1 ≤ (encVal j).length := by
  obtain ⟨c, cs, hc, -⟩ := encVal_head j
  rw [hc]
  simp

theorem jfuel_le_length : ∀ j, jfuel j ≤ (encVal j).length := by
  intro j
  induction j using json_ind with
  | hnull => decide
  | hbool b => cases b <;> decide
  | hnum i =>
    have := encVal_length_pos (.num i)
    simp only [jfuel]
    omega
  | hstr s =>
    have := encVal_length_pos (.str s)
    simp only [jfuel]
    omega
  | harr xs hx =>
    have helems : ∀ ys, (∀ y ∈ ys, jfuel y ≤ (encVal y).length) →
        efuel ys ≤ (encElems ys).length := by
      intro ys
      induction ys with
      | nil => intro _; decide
      | cons y ys ihy =>
        intro hmem
        have h1 := hmem y (by simp)
        have h2 := ihy (fun z hz => hmem z (List.mem_cons_of_mem y hz))
        have h3 := encVal_length_pos y
        have h4 := encElems_length_pos ys
        simp only [efuel, encElems, List.length_cons, List.length_append]
        omega
    cases xs with
    | nil => decide
    | cons x xs =>
      have h1 := hx x (by simp)
      have h2 := helems xs (fun z hz => hx z (List.mem_cons_of_mem x hz))
      have h3 := encVal_length_pos x
      have h4 := encElems_length_pos xs
      simp only [jfuel, efuel, encVal, List.length_cons, List.length_append]
      omega
  | hobj fs hfm =>
    have hfields : ∀ gs : List (String × Json), (∀ kv ∈ gs, jfuel kv.2 ≤ (encVal kv.2).length) →
        ffuel gs ≤ (encFields gs).length := by
      intro gs
      induction gs with
      | nil => intro _; decide
      | cons kv gs ihg =>
        intro hmem
        obtain ⟨k, v⟩ := kv
        have h1 := hmem (k, v) (by simp)
        have h2 := ihg (fun z hz => hmem z (List.mem_cons_of_mem (k, v) hz))
        have h3 := encVal_length_pos v
        have h4 := encFields_length_pos gs
        simp only [ffuel, encFields, List.length_cons, List.length_append]
        simp only at h1
        omega
    cases fs with
    | nil => decide
    | cons kv fs =>
      obtain ⟨k, v⟩ := kv
      have h1 := hfm (k, v) (by simp)
      have h2 := hfields fs (fun z hz => hfm z (List.mem_cons_of_mem (k, v) hz))
      have h3 := encVal_length_pos v
      have h4 := encFields_length_pos fs
      simp only at h1
      simp only [jfuel, ffuel, encVal, List.length_cons, List.length_append]
      omega

theorem parseVal_enc : ∀ (j : Json) (fuel : Nat) (rest : List Char), jfuel j ≤ fuel →
    noDigitHead rest = true → parseVal fuel (encVal j ++ rest) = some (j, rest) := by
  intro j
  induction j using json_ind with
  | hnull =>
    intro fuel rest hf hd
    obtain ⟨f, rfl⟩ : ∃ f, fuel = f + 1 := ⟨fuel - 1, by have := jfuel_pos Json.null; omega⟩
    rw [show encVal .null ++ rest = 'n' :: 'u' :: 'l' :: 'l' :: rest from rfl]
    exact parseVal_null f rest
  | hbool b =>
    intro fuel rest hf hd
    obtain ⟨f, rfl⟩ : ∃ f, fuel = f + 1 := ⟨fuel - 1, by have := jfuel_pos (Json.bool b); omega⟩
    cases b with
    | true =>
      rw [show encVal (.bool true) ++ rest = 't' :: 'r' :: 'u' :: 'e' :: rest from rfl]
      exact parseVal_true f rest
    | false =>
      rw [show encVal (.bool false) ++ rest = 'f' :: 'a' :: 'l' :: 's' :: 'e' :: rest from rfl]
      exact parseVal_false f rest
  | hnum i =>
    intro fuel rest hf hd
    obtain ⟨f, rfl⟩ : ∃ f, fuel = f + 1 := ⟨fuel - 1, by have := jfuel_pos (Json.num i); omega⟩
    rw [show encVal (.num i) = intDecChars i from rfl]
    exact parseVal_num f i rest hd
  | hstr s =>
    intro fuel rest hf hd
    obtain ⟨f, rfl⟩ : ∃ f, fuel = f + 1 := ⟨fuel - 1, by have := jfuel_pos (Json.str s); omega⟩
    rw [show encVal (.str s) = encStringLit s from rfl]
    exact parseVal_str f s rest
  | harr xs hx =>
    intro fuel rest hf hd
    obtain ⟨f, rfl⟩ : ∃ f, fuel = f + 1 := ⟨fuel - 1, by have := jfuel_pos (Json.arr xs); omega⟩
    cases xs with
    | nil =>
      rw [show encVal (.arr []) ++ rest = '[' :: ']' :: rest from rfl]
      exact parseVal_arr_nil f rest
    | cons x xs =>
      obtain ⟨c, cs, hc, hne⟩ := encVal_head x
      have harg : (encVal x ++ encElems xs) ++ rest = c :: (cs ++ (encElems xs ++ rest)) := by
        rw [hc]
        simp
      have hshape : encVal (.arr (x :: xs)) ++ rest =
          '[' :: (c :: (cs ++ (encElems xs ++ rest))) := by
        rw [show encVal (.arr (x :: xs)) = '[' :: (encVal x ++ encElems xs) from rfl,
          List.cons_append, harg]
      rw [hshape, parseVal_arr_go f c _ hne, ← harg,
        parseElems_enc xs x hx f rest (by simp [jfuel] at hf; omega), omap_some]
  | hobj fs hfm =>
    intro fuel rest hf hd
    obtain ⟨f, rfl⟩ : ∃ f, fuel = f + 1 := ⟨fuel - 1, by have := jfuel_pos (Json.obj fs); omega⟩
    cases fs with
    | nil =>
      rw [show encVal (.obj []) ++ rest = '{' :: '}' :: rest from rfl]
      exact parseVal_obj_nil f rest
    | cons kv fs =>
      obtain ⟨k, v⟩ := kv
      have hY : (encStringLit k ++ ':' :: encVal v ++ encFields fs) ++ rest =
          '"' :: (((encStrChars k.toList ++ ['"']) ++ (':' :: encVal v ++ encFields fs)) ++ rest) := by
        rw [show encStringLit k = '"' :: (encStrChars k.toList ++ ['"']) from rfl]
        simp
      have hshape : encVal (.obj ((k, v) :: fs)) ++ rest =
          '{' :: ((encStringLit k ++ ':' :: encVal v ++ encFields fs) ++ rest) := by
        rw [show encVal (.obj ((k, v) :: fs)) =
          '{' :: (encStringLit k ++ ':' :: encVal v ++ encFields fs) from rfl, List.cons_append]
      rw [hshape, hY, parseVal_obj_go, ← hY,
        parseMembers_enc fs k v hfm f rest (by simp [jfuel] at hf; omega), omap_some]

theorem jsonDecode_encode (j : Json) : jsonDecode (jsonEncode j) = some j := by
  have htl : (jsonEncode j).toList = encVal j := rfl
  rw [jsonDecode, htl]
  have hfuel : jfuel j ≤ (encVal j).length + 1 := by
    have := jfuel_le_length j
    omega
  have h := parseVal_enc j ((encVal j).length + 1) [] hfuel rfl
  rw [List.append_nil] at h
  rw [h, obind_some]
  simp

theorem stream_items_some (S : List Json) (c : Int) :
    stream_items S (some c) = S.filter (fun item => itemCategoryMatches item c) := rfl

theorem stream_items_none (S : List Json) : stream_items S none = S := by
  simp [stream_items]

theorem itemCategoryMatches_isDict (item : Json) (c : Int)
    (h : itemCategoryMatches item c = true) : pyIsDict item = true := by
  cases item <;> simp_all [itemCategoryMatches, pyIsDict]

theorem foldl_count (S : List Json) : ∀ n : Nat,
    S.foldl (fun c _ => c + 1) n = n + S.length := by
  induction S with
  | nil => intro n; simp
  | cons x S ih => intro n; rw [List.foldl_cons, ih]; simp; omega

theorem foldl_keeps (fmt : OutFormat) (ht : HashChoice) (cat : Int)
    (hb : (fmt == OutFormat.json) = false) :
    ∀ (items : List Json) (st : LoopSt),
      (List.foldl (loopStep false fmt ht cat) st items).matchesAcc = st.matchesAcc := by
  intro items
  induction items with
  | nil => intro st; rfl
  | cons it items ih =>
    intro st
    rw [List.foldl_cons, ih]
    rw [loopStep]
    by_cases he : st.err.isSome = true
    · rw [if_pos he]
    · rw [if_neg he]
      by_cases hm : itemCategoryMatches it cat = true
      · rw [if_pos hm]
        have hcond : (false || (fmt == OutFormat.json)) = false := by rw [hb]; rfl
        rw [if_neg (by rw [hcond]; exact Bool.false_ne_true)]
        cases fmt with
        | json => rfl
        | readable =>
          cases harm : format_readable it with
          | ok s => rfl
          | error e => rfl
        | hashonly =>
          cases harm : format_hashonly it ht.str with
          | ok o => cases o <;> rfl
          | error e => rfl
      · rw [if_neg hm]

theorem foldl_json (ht : HashChoice) (cat : Int) :
    ∀ (items : List Json) (st : LoopSt), st.err = none →
      (List.foldl (loopStep false OutFormat.json ht cat) st items).matchesAcc =
        st.matchesAcc ++ items.filter (fun item => itemCategoryMatches item cat) ∧
      (List.foldl (loopStep false OutFormat.json ht cat) st items).err = none := by
  intro items
  induction items with
  | nil => intro st h; simp [h]
  | cons it items ih =>
    intro st h
    rw [List.foldl_cons, List.filter_cons]
    by_cases hm : itemCategoryMatches it cat = true
    · rw [if_pos hm]
      have hstep : loopStep false OutFormat.json ht cat st it =
          { st with found := st.found + 1, matchesAcc := st.matchesAcc ++ [it] } := by
        rw [loopStep, if_neg (by rw [h]; exact Bool.false_ne_true), if_pos hm,
          if_pos (by rfl)]
      rw [hstep]
      obtain ⟨h1, h2⟩ := ih { st with found := st.found + 1, matchesAcc := st.matchesAcc ++ [it] } (by exact h)
      rw [h1, h2]
      simp
    · rw [if_neg hm]
      have hstep : loopStep false OutFormat.json ht cat st it = st := by
        rw [loopStep, if_neg (by rw [h]; exact Bool.false_ne_true), if_neg hm]
      rw [hstep]
      exact ih st h

/-! ## Claims -/

/-- Claim C1: for every source and every category predicate (equality against
a category value), every item yielded by `stream_items` with that category is
a record satisfying the predicate, the yielded items keep their relative
source order (a sublist), and nothing is deduplicated (the output length
equals the number of matching positions); on the scenario source with
categories 0, 1, 1, 2, 1, filtering for category 1 yields exactly records
2, 3 and 5 in that order, and the run counts 3 matches. -/
theorem c1_stream_filter_order :
    (∀ (S : List Json) (c : Int),
      (∀ item ∈ stream_items S (some c),
        pyIsDict item = true ∧ itemCategoryMatches item c = true) ∧
      (stream_items S (some c)).Sublist S ∧
      (stream_items S (some c)).length =
        S.countP (fun item => itemCategoryMatches item c)) ∧
    stream_items scenSource (some 1) = [scenRec2, scenRec3, scenRec5] ∧
    (runLoop false OutFormat.readable HashChoice.md5 1 scenSource).found = 3 := by
  refine ⟨fun S c => ⟨?_, ?_, ?_⟩, rfl, rfl⟩
  · intro item hmem
    rw [stream_items_some] at hmem
    have h := (List.mem_filter.mp hmem).2
    exact ⟨itemCategoryMatches_isDict item c h, h⟩
  · rw [stream_items_some]
    exact List.filter_sublist S
  · rw [stream_items_some]
    exact (List.countP_eq_length_filter _ _).symm

/-- Claim C1 witness: the general part of the claim applied to the concrete
scenario source, category 1 and its first yielded record. -/
theorem c1_witness :
    pyIsDict scenRec2 = true ∧ itemCategoryMatches scenRec2 1 = true :=
  (c1_stream_filter_order.1 scenSource 1).1 scenRec2
    (by rw [show stream_items scenSource (some 1) = [scenRec2, scenRec3, scenRec5] from rfl]
        exact List.mem_cons_self _ _)

/-- Claim C4: the item-counting pass returns exactly the length of the fully
materialised unfiltered item stream over the same source. -/
theorem c4_count_eq_stream_length :
    ∀ S : List Json, count_items S = (stream_items S none).length := by
  intro S
  rw [stream_items_none, count_items, foldl_count]
  simp

/-- Claim C6: decoding the compact rendering of any record and re-encoding
the decoded value reproduces a byte-identical string (the decode is in fact
the exact inverse, so field order and types are preserved). -/
theorem c6_compact_roundtrip :
    ∀ r : Json, jsonDecode (jsonEncode r) = some r ∧
      (jsonDecode (jsonEncode r)).map jsonEncode = some (jsonEncode r) := by
  intro r
  have h := jsonDecode_encode r
  exact ⟨h, by rw [h, omap_some]⟩

/-- Claim C5: envelope assembly produces exactly the object with the context
field first (its scalar preserved, `null` when it was not found) and the
match array second in original order - decoding the rendered envelope
recovers it verbatim - and the file writer emits byte-identical content to
the console formatter. -/
theorem c5_envelope_roundtrip :
    ∀ (items : List Json) (ctx : Json),
      jsonDecode (format_json items ctx) =
        some (.obj [("@odata.context", ctx), ("value", .arr items)]) ∧
      write_json_file items ctx = format_json items ctx ∧
      dictGet [("@odata.context", ctx), ("value", .arr items)] "@odata.context" .null = ctx ∧
      dictGet [("@odata.context", ctx), ("value", .arr items)] "value" .null = .arr items := by
  intro items ctx
  refine ⟨?_, rfl, rfl, rfl⟩
  rw [format_json]
  exact jsonDecode_encode _

/-- Claim C2 (code bug): in hash-only console streaming mode the loop prints
the hash line but never increments `hash_matches_processed_count`, so the
final warning reports `matches_found - 0` omissions even when no matched
record had an empty hash.  On a source with one matched record whose MD5 is
the non-empty string "abc", the console run prints the hash yet warns that
1 md5 hash was empty, although the number of matched records with an empty
or absent hash is 0; the file-output run on the same source counts
correctly and warns not. -/
theorem c2_console_omission_bug :
    (mainRun [hashRec] 1 (.str "ctx") false OutFormat.hashonly HashChoice.md5).stream_out =
      ["abc\n"] ∧
    (mainRun [hashRec] 1 (.str "ctx") false OutFormat.hashonly HashChoice.md5).found = 1 ∧
    (mainRun [hashRec] 1 (.str "ctx") false OutFormat.hashonly HashChoice.md5).warning =
      some "Warning: 1 md5 hashes were empty and not included in the output." ∧
    ([hashRec].filter (fun item => itemCategoryMatches item 1)).countP
      (fun item =>
        match format_hashonly item HashChoice.md5.str with
        | .ok none => true
        | _ => false) = 0 ∧
    (mainRun [hashRec] 1 (.str "ctx") true OutFormat.hashonly HashChoice.md5).processed = 1 ∧
    (mainRun [hashRec] 1 (.str "ctx") true OutFormat.hashonly HashChoice.md5).warning = none :=
  ⟨rfl, rfl, rfl, rfl, rfl, rfl⟩

/-- Claim C3 counterexample: with no category filter (`category = None`),
`stream_items` yields the non-record item `5` unchanged, so the always-true
predicate path does not exclude non-record items. -/
theorem c3_counterexample :
    ¬ (∀ item ∈ stream_items [Json.num 5] none, pyIsDict item = true) := by
  intro h
  have hmem : Json.num 5 ∈ stream_items [Json.num 5] none := by
    rw [show stream_items [Json.num 5] none = [Json.num 5] from rfl]
    exact List.mem_cons_self _ _
  have := h (Json.num 5) hmem
  simp [pyIsDict] at this

/-- Claim C3 amended: with a concrete category filter, `stream_items` yields
only mapping records (non-records are silently excluded for every category
value, never an error); with no category filter it yields every item
unchanged, non-records included - it is the main loop's own
`isinstance(item, dict)` test (`itemCategoryMatches`) that treats every
non-record constructor as non-matching. -/
theorem c3_amended :
    (∀ (S : List Json) (c : Int), ∀ item ∈ stream_items S (some c), pyIsDict item = true) ∧
    (∀ S : List Json, stream_items S none = S) ∧
    (∀ c : Int, itemCategoryMatches Json.null c = false ∧
      (∀ b, itemCategoryMatches (Json.bool b) c = false) ∧
      (∀ n, itemCategoryMatches (Json.num n) c = false) ∧
      (∀ s, itemCategoryMatches (Json.str s) c = false) ∧
      (∀ xs, itemCategoryMatches (Json.arr xs) c = false)) := by
  refine ⟨?_, stream_items_none, ?_⟩
  · intro S c item hmem
    rw [stream_items_some] at hmem
    exact itemCategoryMatches_isDict item c (List.mem_filter.mp hmem).2
  · intro c
    exact ⟨rfl, fun b => rfl, fun n => rfl, fun s => rfl, fun xs => rfl⟩

/-- Claim C3 witness: the amended claim applied to a concrete source holding
one record and one non-record for category 1. -/
theorem c3_witness :
    pyIsDict (Json.obj [("Category", Json.num 1)]) = true :=
  c3_amended.1 [Json.num 7, Json.obj [("Category", Json.num 1)]] 1
    (Json.obj [("Category", Json.num 1)])
    (by rw [show stream_items [Json.num 7, Json.obj [("Category", Json.num 1)]] (some 1) =
          [Json.obj [("Category", Json.num 1)]] from rfl]
        exact List.mem_cons_self _ _)

/-- Claim C8 counterexample: on a source without the context field the first
`get_context` call completes without finding it, the cache stays `None`, and
the second call on the same run object scans the source again - contradicting
"every subsequent call returns without re-opening or re-scanning, including
when the first scan completed without finding the field". -/
theorem c8_counterexample :
    (get_context (get_context (mkVICParser [])).state).scanned = true := rfl

/-- Claim C8 amended: `get_context` caches only a found non-null value:
after a first call (which always scans) that found one, subsequent calls
return it without re-scanning; when the scan completed without a find (or
found JSON null), the cache stays `None` and every later call re-scans,
returning the same null result. -/
theorem c8_amended : ∀ events : List (String × Json),
    (get_context (mkVICParser events)).scanned = true ∧
    ((get_context (mkVICParser events)).value ≠ Json.null →
      get_context (get_context (mkVICParser events)).state =
        ⟨(get_context (mkVICParser events)).value,
          (get_context (mkVICParser events)).state, false⟩) ∧
    ((get_context (mkVICParser events)).value = Json.null →
      (get_context (get_context (mkVICParser events)).state).value = Json.null ∧
      (get_context (get_context (mkVICParser events)).state).scanned = true) := by
  intro events
  have h1 : get_context (mkVICParser events) =
      ⟨scanContext events, ⟨events, scanContext events⟩, true⟩ := rfl
  have h2 : ∀ (ev : List (String × Json)) (c : Json), c ≠ Json.null →
      get_context ⟨ev, c⟩ = ⟨c, ⟨ev, c⟩, false⟩ := by
    intro ev c hc
    cases c with
    | null => exact absurd rfl hc
    | bool b => rfl
    | num n => rfl
    | str s => rfl
    | arr xs => rfl
    | obj fs => rfl
  rw [h1]
  refine ⟨rfl, ?_, ?_⟩
  · intro hne
    exact h2 events (scanContext events) hne
  · intro heq
    have heq' : scanContext events = Json.null := heq
    constructor
    · show (get_context ⟨events, scanContext events⟩).value = Json.null
      rw [heq']
      show scanContext events = Json.null
      exact heq'
    · show (get_context ⟨events, scanContext events⟩).scanned = true
      rw [heq']
      rfl

/-- Claim C8 witness: the amended claim applied to a source whose context
field holds the string "ctx" - the second call is served from the cache. -/
theorem c8_witness :
    get_context (get_context (mkVICParser [("@odata.context", Json.str "ctx")])).state =
      ⟨(get_context (mkVICParser [("@odata.context", Json.str "ctx")])).value,
        (get_context (mkVICParser [("@odata.context", Json.str "ctx")])).state, false⟩ :=
  (c8_amended [("@odata.context", Json.str "ctx")]).2.1
    (fun h => Json.noConfusion h)

/-- Claim C9 counterexample: in the default compact (`json`) format writing
to the console, the run does accumulate the matched record in the `matches`
list - it is not discarded, contradicting "the accumulated-matches list
stays empty throughout every console-streaming run". -/
theorem c9_counterexample :
    (mainRun [hashRec] 1 (.str "ctx") false OutFormat.json HashChoice.md5).matchesAcc =
      [hashRec] ∧ [hashRec] ≠ ([] : List Json) :=
  ⟨rfl, by simp⟩

/-- Claim C9 amended: the render-and-discard invariant (the accumulated
`matches` list stays empty at every point of the run) holds for the
`readable` and `hashonly` console-streaming formats; in the default compact
(`json`) format writing to the console the run instead accumulates every
matched record and prints the full envelope object once at the end. -/
theorem c9_amended : ∀ (S : List Json) (cat : Int) (ctx : Json) (ht : HashChoice),
    (∀ n : Nat,
      (runLoop false OutFormat.readable ht cat (S.take n)).matchesAcc = []) ∧
    (∀ n : Nat,
      (runLoop false OutFormat.hashonly ht cat (S.take n)).matchesAcc = []) ∧
    (mainRun S cat ctx false OutFormat.json ht).matchesAcc =
      S.filter (fun item => itemCategoryMatches item cat) ∧
    (mainRun S cat ctx false OutFormat.json ht).console_json =
      some (format_json (S.filter (fun item => itemCategoryMatches item cat)) ctx) := by
  intro S cat ctx ht
  obtain ⟨hm, he⟩ := foldl_json ht cat S initLoopSt rfl
  have hst : (runLoop false OutFormat.json ht cat S).matchesAcc =
      S.filter (fun item => itemCategoryMatches item cat) := by
    rw [runLoop] at *
    simpa [initLoopSt] using hm
  have hse : (runLoop false OutFormat.json ht cat S).err = none := he
  refine ⟨?_, ?_, ?_, ?_⟩
  · intro n
    exact foldl_keeps OutFormat.readable ht cat rfl (S.take n) initLoopSt
  · intro n
    exact foldl_keeps OutFormat.hashonly ht cat rfl (S.take n) initLoopSt
  · rw [mainRun]
    rw [hse]
    simp only [Bool.false_and, Bool.false_eq_true, if_false, if_pos rfl]
    exact hst
  · rw [mainRun]
    rw [hse]
    simp only [Bool.false_and, Bool.false_eq_true, if_false, if_pos rfl]
    rw [hst]
    simp

/-- Claim C10 counterexample: the claim says an unknown hash kind raises
`KeyError` regardless of the item's contents, but on a non-dict item the
attribute access `item.get` is evaluated before the argument
`hash_map[hash_type]`, so `format_hashonly(None, "xyz")` raises
`AttributeError`, not `KeyError`. -/
theorem c10_counterexample :
    format_hashonly Json.null "xyz" = Except.error "AttributeError" ∧
    (Except.error "AttributeError" : Except String (Option String)) ≠
      Except.error "KeyError" := by
  exact ⟨rfl, by simp⟩

/-- Claim C10, amended: on a record item `format_hashonly` is total exactly
for the hash kinds `md5`, `sha1` and `photodna` - returning the hash value's
string rendering followed by a newline, or the no-value result when the field
is empty or absent (falsy) - and for any other hash-kind string the unguarded
`hash_map[hash_type]` subscript raises `KeyError`; on a non-dict item,
however, the attribute access `item.get` fails first, raising
`AttributeError` whatever the hash kind is. -/
theorem c10_amended :
    (∀ (fs : List (String × Json)) (ht : String),
      (ht = "md5" ∨ ht = "sha1" ∨ ht = "photodna") →
      format_hashonly (.obj fs) ht = .ok (
        if pyTruthy (dictGet fs
            (if ht = "md5" then "MD5" else if ht = "sha1" then "SHA1" else "PhotoDNA")
            (.str "")) = true then
          some (pyStr (dictGet fs
            (if ht = "md5" then "MD5" else if ht = "sha1" then "SHA1" else "PhotoDNA")
            (.str "")) ++ "\n")
        else none)) ∧
    (∀ (fs : List (String × Json)) (ht : String),
      ¬ (ht = "md5" ∨ ht = "sha1" ∨ ht = "photodna") →
      format_hashonly (.obj fs) ht = .error "KeyError") ∧
    (∀ (item : Json) (ht : String), pyIsDict item = false →
      format_hashonly item ht = .error "AttributeError") := by
  refine ⟨?_, ?_, ?_⟩
  · intro fs ht hht
    rcases hht with rfl | rfl | rfl
    · rfl
    · rfl
    · rfl
  · intro fs ht hht
    have h1 : (("md5" : String) == ht) = false := by
      rw [beq_eq_false_iff_ne]
      exact fun h => hht (Or.inl h.symm)
    have h2 : (("sha1" : String) == ht) = false := by
      rw [beq_eq_false_iff_ne]
      exact fun h => hht (Or.inr (Or.inl h.symm))
    have h3 : (("photodna" : String) == ht) = false := by
      rw [beq_eq_false_iff_ne]
      exact fun h => hht (Or.inr (Or.inr h.symm))
    simp only [format_hashonly]
    simp [hash_map, List.find?, h1, h2, h3]
  · intro item ht hnd
    cases item with
    | obj fs => simp [pyIsDict] at hnd
    | null => rfl
    | bool b => rfl
    | num n => rfl
    | str s => rfl
    | arr xs => rfl

/-- Claim C10 witness: on a record without hashes the md5 kind yields the
no-value result, an unknown kind on a record raises `KeyError`, and a
non-dict item raises `AttributeError` even for the valid md5 kind. -/
theorem c10_witness :
    format_hashonly (Json.obj []) "md5" = Except.ok none ∧
    format_hashonly (Json.obj []) "xyz" = Except.error "KeyError" ∧
    format_hashonly (Json.num 5) "md5" = Except.error "AttributeError" := by
  refine ⟨?_, ?_, ?_⟩
  · have h := c10_amended.1 [] "md5" (Or.inl rfl)
    simpa using h
  · exact c10_amended.2.1 [] "xyz" (by simp)
  · exact c10_amended.2.2 (Json.num 5) "md5" rfl

/-- Claim C7: when malformed input interrupts the filter-and-emit pass in a
console-streaming run, the run signals 1 and reports an error - the
malformed-input message when the loop itself raised nothing - while
everything already streamed to the console is exactly what the successful
run on the good prefix would have streamed (no rollback), and no summary,
file content, console envelope or warning is produced (no phase turns the
error into a partial result). -/
theorem c7_malformed_streaming :
    ∀ (goodItems : List Json) (cat : Int) (ctx : Json) (fmt : OutFormat)
      (ht : HashChoice) (emsg : String),
      (fmt = OutFormat.readable ∨ fmt = OutFormat.hashonly) →
      (mainRunTrunc goodItems cat false fmt ht emsg).exitCode = 1 ∧
      (mainRunTrunc goodItems cat false fmt ht emsg).errorMsg.isSome = true ∧
      (mainRunTrunc goodItems cat false fmt ht emsg).stream_out =
        (mainRun goodItems cat ctx false fmt ht).stream_out ∧
      (mainRunTrunc goodItems cat false fmt ht emsg).summary = none ∧
      (mainRunTrunc goodItems cat false fmt ht emsg).file_out = none ∧
      (mainRunTrunc goodItems cat false fmt ht emsg).console_json = none ∧
      (mainRunTrunc goodItems cat false fmt ht emsg).warning = none ∧
      ((runLoop false fmt ht cat goodItems).err = none →
        (mainRunTrunc goodItems cat false fmt ht emsg).errorMsg =
          some ("Error: Invalid JSON file: " ++ emsg)) := by
  intro goodItems cat ctx fmt ht emsg hfmt
  cases herr : (runLoop false fmt ht cat goodItems).err with
  | some e =>
    rw [mainRunTrunc, mainRun, herr]
    exact ⟨rfl, rfl, rfl, rfl, rfl, rfl, rfl, fun h => absurd (herr ▸ h) (Option.some_ne_none e)⟩
  | none =>
    rw [mainRunTrunc, mainRun, herr]
    refine ⟨rfl, rfl, ?_, rfl, rfl, rfl, rfl, fun _ => rfl⟩
    rcases hfmt with rfl | rfl
    · simp
    · simp

/-- Claim C7 witness: the claim applied to a concrete readable console run
whose good prefix holds one matched record. -/
theorem c7_witness :
    (mainRunTrunc [hashRec] 1 false OutFormat.readable HashChoice.md5 "truncated").exitCode = 1 ∧
    (mainRunTrunc [hashRec] 1 false OutFormat.readable HashChoice.md5 "truncated").errorMsg.isSome
      = true ∧
    (mainRunTrunc [hashRec] 1 false OutFormat.readable HashChoice.md5 "truncated").stream_out =
      (mainRun [hashRec] 1 Json.null false OutFormat.readable HashChoice.md5).stream_out ∧
    (mainRunTrunc [hashRec] 1 false OutFormat.readable HashChoice.md5 "truncated").summary =
      none ∧
    (mainRunTrunc [hashRec] 1 false OutFormat.readable HashChoice.md5 "truncated").file_out =
      none ∧
    (mainRunTrunc [hashRec] 1 false OutFormat.readable HashChoice.md5 "truncated").console_json =
      none ∧
    (mainRunTrunc [hashRec] 1 false OutFormat.readable HashChoice.md5 "truncated").warning =
      none ∧
    ((runLoop false OutFormat.readable HashChoice.md5 1 [hashRec]).err = none →
      (mainRunTrunc [hashRec] 1 false OutFormat.readable HashChoice.md5 "truncated").errorMsg =
        some ("Error: Invalid JSON file: " ++ "truncated")) :=
  c7_malformed_streaming [hashRec] 1 Json.null OutFormat.readable HashChoice.md5 "truncated"
    (Or.inl rfl)

end VicCat
